import Mathlib

/-!
Shallow embedding of `src/resolver.ts` (env-resolver).

The TypeScript source has three pieces:
  * `processPattern`            — joins a pattern after NODE_ENV substitution;
  * `generatePatternCombinations` — expands optional parts by an in-place
    clone-before-append loop over a growing array of string arrays;
  * `resolveEnvPath`            — builds the candidate list (custom pattern
    expansions followed by the fixed fallback pattern), probes the filesystem
    in order, logs a notification and returns the first existing path.

Ambient state (`process.env.NODE_ENV`) is modelled as an `Option String`
argument; JavaScript `||` treats the empty string as falsy, which the model
reflects.  The filesystem probe (`existsSync`) and the path absolutiser
(`path.resolve`) are modelled as function arguments.  JavaScript
`String.prototype.replace` with a plain-string search replaces only the first
occurrence of the search string and expands the ECMAScript GetSubstitution
dollar escapes of the replacement string; both behaviours are modelled.  The
ANSI colour decorations are semantically inert and modelled as identity
functions.  The logger side effect is modelled as a `Notification`
value carried in the result.
-/

/-- The two part kinds of the pattern DSL: a literal filename fragment
(`filename`) or a NODE_ENV-parameterised fragment (`node_env`). -/
inductive EnvPartType where
  | filename
  | node_env
deriving DecidableEq, Repr

/-- `EnvPatternPart` from the source: `value`, `type`, and the `optional?`
flag whose absence in TypeScript is falsy, hence the `false` default. -/
structure EnvPatternPart where
  value : String
  type : EnvPartType
  optional : Bool := false
deriving DecidableEq, Repr

/-- `process.env.NODE_ENV || "development"`: JavaScript `||` falls through to
the default both when the variable is unset and when it is the empty string. -/
def activeEnv (nodeEnv : Option String) : String :=
  match nodeEnv with
  | none => "development"
  | some s => if s = "" then "development" else s

/-- Whether `pat` occurs as a contiguous sublist of the argument. -/
def containsSub (pat : List Char) : List Char → Bool
  | [] => pat.isEmpty
  | c :: rest => pat.isPrefixOf (c :: rest) || containsSub pat rest

/-- Index of the first occurrence of `pat` (JavaScript `indexOf`); an empty
search string matches at position 0. -/
def firstOccurrence? (pat : List Char) : List Char → Option Nat
  | [] => if pat.isEmpty then some 0 else none
  | c :: rest =>
    if pat.isPrefixOf (c :: rest) then some 0
    else (firstOccurrence? pat rest).map (fun i => i + 1)

/-- ECMAScript GetSubstitution for a plain-string search: expand the dollar
escapes of the replacement template — a double dollar yields a dollar,
dollar-ampersand the matched text, dollar-backtick (code 96) the text before
the match, dollar-apostrophe (code 39) the text after the match; every other
dollar sequence, including the digit forms, which have no capture groups to
refer to for a string search, stays literal. -/
def jsGetSubstitution (matched before after : List Char) : List Char → List Char
  | [] => []
  | ['$'] => ['$']
  | '$' :: d :: rest =>
    if d = '$' then '$' :: jsGetSubstitution matched before after rest
    else if d = '&' then matched ++ jsGetSubstitution matched before after rest
    else if d = Char.ofNat 96 then before ++ jsGetSubstitution matched before after rest
    else if d = Char.ofNat 39 then after ++ jsGetSubstitution matched before after rest
    else '$' :: d :: jsGetSubstitution matched before after rest
  | c :: rest => c :: jsGetSubstitution matched before after rest

/-- JavaScript `s.replace(pat, repl)` for a plain-string `pat`: replace the
first occurrence only, expanding the replacement template per
`jsGetSubstitution`; with no occurrence the string is returned unchanged. -/
def jsReplace (s pat repl : String) : String :=
  match firstOccurrence? pat.data s.data with
  | none => s
  | some pos =>
    let before := s.data.take pos
    let after := s.data.drop (pos + pat.data.length)
    ⟨before ++ jsGetSubstitution pat.data before after repl.data ++ after⟩

/-- The per-part contribution, inlined identically in `processPattern` and
`generatePatternCombinations`:
`part.type === "node_env" ? part.value.replace("$1", env) : part.value`. -/
def partContribution (env : String) (part : EnvPatternPart) : String :=
  if part.type = EnvPartType.node_env then jsReplace part.value "$1" env
  else part.value

/-- JavaScript `Array.prototype.join` with the empty separator on a string array. -/
def joinAll : List String → String
  | [] => ""
  | s :: rest => s ++ joinAll rest

/-- `processPattern` from the source: map each part to its contribution and
join with the empty separator. -/
def processPattern (nodeEnv : Option String) (pattern : List EnvPatternPart) : String :=
  let env := activeEnv nodeEnv
  joinAll (pattern.map (partContribution env))

/-- The inner `for (let i = 0; i < currentLength; i++)` loop of
`generatePatternCombinations`, with the remaining iteration count as fuel
(`fuel = currentLength - i` throughout).  Per iteration, on an optional part a
clone of `combinations[i]` is pushed to the end *before* `combinations[i]`
itself is extended with the processed contribution. -/
def forLoopAux (processed : String) (opt : Bool) :
    Nat → Nat → List (List String) → List (List String)
  | 0, _, combos => combos
  | fuel + 1, i, combos =>
    let combos := if opt then combos ++ [combos.getD i []] else combos
    let combos := combos.set i (combos.getD i [] ++ [processed])
    forLoopAux processed opt fuel (i + 1) combos

/-- One `pattern.forEach` body of `generatePatternCombinations`: capture
`currentLength` and run the indexed loop from `i = 0`. -/
def forLoop (processed : String) (opt : Bool) (combos : List (List String)) :
    List (List String) :=
  forLoopAux processed opt combos.length 0 combos

/-- `generatePatternCombinations` with the env name already resolved: start
from `[[]]`, run the clone-before-append loop for each part in sequence order,
then join every combination. -/
def genCore (env : String) (pattern : List EnvPatternPart) : List String :=
  (pattern.foldl (fun combos part =>
      forLoop (partContribution env part) part.optional combos) [[]]).map joinAll

/-- `generatePatternCombinations` from the source. -/
def generatePatternCombinations (nodeEnv : Option String)
    (pattern : List EnvPatternPart) : List String :=
  genCore (activeEnv nodeEnv) pattern

/-- The default value of the `pattern` parameter of `resolveEnvPath`: mandatory
literal `.env` followed by an optional `node_env` part `.$1`. -/
def defaultEnvPattern : List EnvPatternPart :=
  [{ value := ".env", type := EnvPartType.filename },
   { value := ".$1", type := EnvPartType.node_env, optional := true }]

/-- The local `defaultPattern` of `resolveEnvPath`: the fixed built-in
fallback, a single mandatory literal `.env`. -/
def fallbackPattern : List EnvPatternPart :=
  [{ value := ".env", type := EnvPartType.filename }]

/-- `filesToTry` of `resolveEnvPath`: custom pattern expansions followed by
the expansions of the fallback pattern. -/
def candidateList (nodeEnv : Option String) (pattern : List EnvPatternPart) :
    List String :=
  generatePatternCombinations nodeEnv pattern ++
    generatePatternCombinations nodeEnv fallbackPattern

/-- Severity of a logger call (`EnvLogger.warn` vs `EnvLogger.log`). -/
inductive LogLevel where
  | warn
  | info
deriving DecidableEq, Repr

/-- One emitted logger call. -/
structure Notification where
  level : LogLevel
  message : String
deriving DecidableEq, Repr

/-- `color.green` is decorative ANSI styling with no semantic content;
modelled as the identity on the message text. -/
def colorGreen (s : String) : String := s

/-- `color.cyan`, likewise modelled as the identity. -/
def colorCyan (s : String) : String := s

/-- The notification branch of `resolveEnvPath`: matched candidate `.env`
warns about the fallback unless `ignoreEnvSpecificWarn` is set (then an
info-level message), any other match logs an info-level message naming it. -/
def resolverNotification (ignoreEnvSpecificWarn : Bool) (resolvedBy : String) :
    Notification :=
  if resolvedBy = ".env" then
    if !ignoreEnvSpecificWarn then
      { level := LogLevel.warn, message := "Using fallback .env file" }
    else
      { level := LogLevel.info, message := "Using .env file" }
  else
    { level := LogLevel.info,
      message := colorGreen ("Using " ++ colorCyan resolvedBy ++ " file") }

/-- The candidate-probing loop of `resolveEnvPath`: for each filename in
order, absolutise `dest ++ "/" ++ filename` and test existence; stop at the
first hit, returning the matched candidate and its resolved path. -/
def findFirstExisting (existsSyncF : String → Bool) (resolveF : String → String)
    (dest : String) : List String → Option (String × String)
  | [] => none
  | filename :: rest =>
    let filepath := resolveF (dest ++ "/" ++ filename)
    if existsSyncF filepath then some (filename, filepath)
    else findFirstExisting existsSyncF resolveF dest rest

/-- The error message thrown when every candidate fails the existence check:
the attempted filenames joined by the two-space-dash separator of the source. -/
def errMessage (filesToTry : List String) : String :=
  "Couldn\x27t load environment file from any sources:\nTried: " ++
    String.intercalate "\n  - " filesToTry

/-- The outcome of a successful resolution: the internal `config.resolvedBy`
and `config.filepath`, plus the single logger call, carried as data. -/
structure ResolveResult where
  resolvedBy : String
  filepath : String
  notification : Notification
deriving DecidableEq, Repr

instance {α β : Type} [DecidableEq α] [DecidableEq β] : DecidableEq (Except α β) :=
  fun a b =>
    match a, b with
    | Except.ok x, Except.ok y =>
      if h : x = y then isTrue (by rw [h])
      else isFalse (by intro hc; cases hc; exact h rfl)
    | Except.ok _, Except.error _ => isFalse (by intro hc; cases hc)
    | Except.error _, Except.ok _ => isFalse (by intro hc; cases hc)
    | Except.error x, Except.error y =>
      if h : x = y then isTrue (by rw [h])
      else isFalse (by intro hc; cases hc; exact h rfl)

/-- `resolveEnvPath` from the source, with the filesystem existence check and
`path.resolve` as function arguments and NODE_ENV as an `Option String`. -/
def resolveEnvPath (existsSyncF : String → Bool) (resolveF : String → String)
    (nodeEnv : Option String) (dest : String)
    (ignoreEnvSpecificWarn : Bool := false)
    (pattern : List EnvPatternPart := defaultEnvPattern) :
    Except String ResolveResult :=
  let filesToTry := candidateList nodeEnv pattern
  match findFirstExisting existsSyncF resolveF dest filesToTry with
  | none => Except.error (errMessage filesToTry)
  | some (resolvedBy, filepath) =>
    Except.ok { resolvedBy := resolvedBy, filepath := filepath,
                notification := resolverNotification ignoreEnvSpecificWarn resolvedBy }

/-- Modelled from the spec: the reference Combination Generator algorithm of
section 4.2, phrased on in-progress filename prefixes (strings).  Start with
one empty prefix; for an optional part, clone every existing prefix as-is onto
the end of the working list, then append the contribution of the part to the
prefixes that existed before the clone step; for a mandatory part, append the
contribution to every prefix unconditionally. -/
def specStep (contribution : String) (opt : Bool) (prefixes : List String) :
    List String :=
  if opt then prefixes.map (fun s => s ++ contribution) ++ prefixes
  else prefixes.map (fun s => s ++ contribution)

/-- Modelled from the spec: run the section 4.2 reference algorithm over the
parts in sequence order, each part resolved to its literal contribution. -/
def specCombinations (nodeEnv : Option String) (pattern : List EnvPatternPart) :
    List String :=
  let env := activeEnv nodeEnv
  pattern.foldl (fun prefixes part =>
    specStep (partContribution env part) part.optional prefixes) [""]

example : generatePatternCombinations (some "test")
    [{ value := ".env", type := EnvPartType.filename },
     { value := ".$1", type := EnvPartType.node_env, optional := true },
     { value := ".local", type := EnvPartType.filename, optional := true }] =
    [".env.test.local", ".env.local", ".env.test", ".env"] := by decide

example : specCombinations (some "test")
    [{ value := ".env", type := EnvPartType.filename },
     { value := ".$1", type := EnvPartType.node_env, optional := true },
     { value := ".local", type := EnvPartType.filename, optional := true }] =
    [".env.test.local", ".env.local", ".env.test", ".env"] := by decide

example : candidateList none defaultEnvPattern =
    [".env.development", ".env", ".env"] := by decide

/-! ### List indexing helpers for the in-place loop -/

lemma getD_append_len {α : Type} (X : List α) (b : α) (Y : List α) (d : α)
    (i : Nat) (h : i = X.length) : (X ++ b :: Y).getD i d = b := by
  subst h
  induction X with
  | nil => rfl
  | cons x X ih => simpa using ih

lemma set_append_len {α : Type} (X : List α) (b v : α) (Y : List α)
    (i : Nat) (h : i = X.length) : (X ++ b :: Y).set i v = X ++ v :: Y := by
  subst h
  induction X with
  | nil => rfl
  | cons x X ih => simp only [List.cons_append, List.length_cons, List.set_cons_succ, ih]

/-! ### The indexed loop computes map-then-clones -/

lemma forLoopAux_mand (p : String) :
    ∀ (B A : List (List String)),
      forLoopAux p false B.length A.length
          (A.map (fun c => c ++ [p]) ++ B) =
        (A ++ B).map (fun c => c ++ [p]) := by
  intro B
  induction B with
  | nil => intro A; simp [forLoopAux]
  | cons b B ih =>
    intro A
    have hlen : (b :: B).length = B.length + 1 := rfl
    rw [hlen, forLoopAux]
    simp only [if_neg Bool.false_ne_true, Bool.false_eq_true, if_false]
    rw [getD_append_len (A.map (fun c => c ++ [p])) b B [] A.length (by simp),
        set_append_len (A.map (fun c => c ++ [p])) b (b ++ [p]) B A.length (by simp)]
    have hstep : A.map (fun c => c ++ [p]) ++ (b ++ [p]) :: B =
        (A ++ [b]).map (fun c => c ++ [p]) ++ B := by
      simp
    rw [hstep]
    have := ih (A ++ [b])
    simp only [List.length_append, List.length_cons, List.length_nil,
      List.append_assoc, List.cons_append, List.nil_append] at this ⊢
    exact this

lemma forLoopAux_opt (p : String) :
    ∀ (B A : List (List String)),
      forLoopAux p true B.length A.length
          (A.map (fun c => c ++ [p]) ++ B ++ A) =
        (A ++ B).map (fun c => c ++ [p]) ++ (A ++ B) := by
  intro B
  induction B with
  | nil => intro A; simp [forLoopAux]
  | cons b B ih =>
    intro A
    have hlen : (b :: B).length = B.length + 1 := rfl
    rw [hlen, forLoopAux]
    simp only [if_pos, if_true, List.append_assoc, List.cons_append, List.nil_append]
    rw [getD_append_len (A.map (fun c => c ++ [p])) b (B ++ A) [] A.length (by simp)]
    rw [getD_append_len (A.map (fun c => c ++ [p])) b (B ++ (A ++ [b])) [] A.length
          (by simp)]
    rw [set_append_len (A.map (fun c => c ++ [p])) b (b ++ [p]) (B ++ (A ++ [b]))
          A.length (by simp)]
    have := ih (A ++ [b])
    simp only [List.length_append, List.length_cons, List.length_nil, List.map_append,
      List.map_cons, List.map_nil, List.append_assoc, List.cons_append, List.nil_append,
      List.singleton_append] at this ⊢
    exact this

/-- The `forEach` body is the reference step: append the contribution to every
previous combination, and for an optional part keep the untouched clones of
all previous combinations after them. -/
lemma forLoop_eq (p : String) (opt : Bool) (L : List (List String)) :
    forLoop p opt L =
      if opt then L.map (fun c => c ++ [p]) ++ L
      else L.map (fun c => c ++ [p]) := by
  cases opt with
  | false =>
    have := forLoopAux_mand p L []
    simpa [forLoop] using this
  | true =>
    have := forLoopAux_opt p L []
    simpa [forLoop] using this

/-! ### Joining combinations commutes with the step -/

lemma joinAll_append (a b : List String) :
    joinAll (a ++ b) = joinAll a ++ joinAll b := by
  induction a with
  | nil => simp [joinAll]
  | cons s a ih => simp [joinAll, ih, String.append_assoc]

lemma joinAll_concat (c : List String) (p : String) :
    joinAll (c ++ [p]) = joinAll c ++ p := by
  simp [joinAll_append, joinAll]

lemma map_joinAll_forLoop (p : String) (opt : Bool) (L : List (List String)) :
    (forLoop p opt L).map joinAll = specStep p opt (L.map joinAll) := by
  rw [forLoop_eq]
  cases opt <;>
    simp [specStep, joinAll_concat, Function.comp]

lemma foldl_forLoop_eq_spec (env : String) :
    ∀ (pattern : List EnvPatternPart) (L : List (List String)),
      ((pattern.foldl (fun combos part =>
          forLoop (partContribution env part) part.optional combos) L).map joinAll) =
        pattern.foldl (fun prefixes part =>
          specStep (partContribution env part) part.optional prefixes) (L.map joinAll) := by
  intro pattern
  induction pattern with
  | nil => intro L; simp
  | cons part pattern ih =>
    intro L
    rw [List.foldl_cons, List.foldl_cons, ih, map_joinAll_forLoop]

/-- The source generator coincides with the reference algorithm of the spec. -/
lemma gen_eq_spec (nodeEnv : Option String) (pattern : List EnvPatternPart) :
    generatePatternCombinations nodeEnv pattern = specCombinations nodeEnv pattern := by
  unfold generatePatternCombinations genCore specCombinations
  have h := foldl_forLoop_eq_spec (activeEnv nodeEnv) pattern [[]]
  simpa [joinAll] using h

/-! ### Structure of the expanded list -/

lemma specStep_length (p : String) (opt : Bool) (S : List String) :
    (specStep p opt S).length = (if opt then 2 * S.length else S.length) := by
  cases opt <;> simp [specStep, two_mul]

lemma specFoldl_length (env : String) :
    ∀ (pattern : List EnvPatternPart) (S : List String),
      (pattern.foldl (fun prefixes part =>
          specStep (partContribution env part) part.optional prefixes) S).length =
        S.length * 2 ^ (pattern.countP (fun part => part.optional)) := by
  intro pattern
  induction pattern with
  | nil => intro S; simp
  | cons part pattern ih =>
    intro S
    rw [List.foldl_cons, ih, List.countP_cons, specStep_length]
    cases hopt : part.optional
    · simp [hopt]
    · simp only [hopt, if_true, pow_succ]
      ring

lemma specFoldl_head (env : String) :
    ∀ (pattern : List EnvPatternPart) (S : List String) (s : String),
      S.head? = some s →
      (pattern.foldl (fun prefixes part =>
          specStep (partContribution env part) part.optional prefixes) S).head? =
        some (s ++ joinAll (pattern.map (partContribution env))) := by
  intro pattern
  induction pattern with
  | nil =>
    intro S s hS
    simp [joinAll, hS]
  | cons part pattern ih =>
    intro S s hS
    rw [List.foldl_cons]
    have hstep : (specStep (partContribution env part) part.optional S).head? =
        some (s ++ partContribution env part) := by
      cases S with
      | nil => simp at hS
      | cons t S =>
        simp only [List.head?_cons, Option.some.injEq] at hS
        subst hS
        cases part.optional <;> simp [specStep]
    rw [ih _ _ hstep]
    simp [joinAll, String.append_assoc]

lemma specFoldl_no_optional (env : String) :
    ∀ (pattern : List EnvPatternPart) (s : String),
      pattern.countP (fun part => part.optional) = 0 →
      pattern.foldl (fun prefixes part =>
          specStep (partContribution env part) part.optional prefixes) [s] =
        [s ++ joinAll (pattern.map (partContribution env))] := by
  intro pattern
  induction pattern with
  | nil => intro s _; simp [joinAll]
  | cons part pattern ih =>
    intro s hcount
    rw [List.countP_cons] at hcount
    have hopt : part.optional = false := by
      cases h : part.optional
      · rfl
      · simp [h] at hcount
    rw [List.foldl_cons]
    have hstep : specStep (partContribution env part) part.optional [s] =
        [s ++ partContribution env part] := by
      simp [specStep, hopt]
    rw [hstep, ih _ (by omega)]
    simp [joinAll, String.append_assoc]

/-! ### Placeholder substitution -/

lemma firstOccurrence?_of_not_contains (pat : List Char) :
    ∀ s : List Char, containsSub pat s = false → firstOccurrence? pat s = none := by
  intro s
  induction s with
  | nil =>
    intro h
    simp only [containsSub] at h
    simp [firstOccurrence?, h]
  | cons c rest ih =>
    intro h
    simp only [containsSub, Bool.or_eq_false_iff] at h
    simp only [firstOccurrence?, h.1, Bool.false_eq_true, if_false, ih h.2,
      Option.map_none']

lemma dollarOne_not_prefix_clean (c : Char) (a b : List Char)
    (h : (['$', '1'].isPrefixOf (c :: a)) = false) :
    (['$', '1'].isPrefixOf (c :: (a ++ '$' :: '1' :: b))) = false := by
  cases a with
  | nil =>
    simp only [List.nil_append, List.isPrefixOf, Bool.and_eq_false_iff]
    refine Or.inr (Or.inl ?_)
    decide
  | cons d a2 =>
    simp only [List.isPrefixOf, List.cons_append, Bool.and_eq_false_iff] at h ⊢
    rcases h with hc | hd
    · exact Or.inl hc
    · rcases hd with hd | hrest
      · exact Or.inr (Or.inl hd)
      · simp at hrest

lemma firstOccurrence?_first (b : List Char) :
    ∀ a : List Char, containsSub ['$', '1'] a = false →
      firstOccurrence? ['$', '1'] (a ++ '$' :: '1' :: b) = some a.length := by
  intro a
  induction a with
  | nil =>
    intro _
    simp [firstOccurrence?, List.isPrefixOf]
  | cons c a ih =>
    intro h
    simp only [containsSub, Bool.or_eq_false_iff] at h
    rw [List.cons_append, firstOccurrence?,
      dollarOne_not_prefix_clean c a b h.1]
    simp only [Bool.false_eq_true, if_false, ih h.2, Option.map_some', List.length_cons]

lemma jsGetSubstitution_no_dollar (matched before after : List Char) :
    ∀ repl : List Char, ('$' : Char) ∉ repl →
      jsGetSubstitution matched before after repl = repl := by
  intro repl
  induction repl with
  | nil => intro _; rfl
  | cons c rest ih =>
    intro h
    have hc : ¬c = '$' := fun hcc => h (hcc ▸ List.mem_cons_self c rest)
    have hrest : ('$' : Char) ∉ rest := fun hm => h (List.mem_cons_of_mem c hm)
    cases rest with
    | nil => simp [jsGetSubstitution, hc]
    | cons d rest2 => simp [jsGetSubstitution, hc, ih hrest]

/-! ### The probing loop -/

lemma findFirstExisting_none_iff (e : String → Bool) (r : String → String)
    (dest : String) :
    ∀ files : List String,
      findFirstExisting e r dest files = none ↔
        ∀ f ∈ files, e (r (dest ++ "/" ++ f)) = false := by
  intro files
  induction files with
  | nil => simp [findFirstExisting]
  | cons f rest ih =>
    simp only [findFirstExisting]
    cases hf : e (r (dest ++ "/" ++ f)) <;> simp [hf, ih]

lemma findFirstExisting_first_index (e : String → Bool) (r : String → String)
    (dest : String) :
    ∀ (files : List String) (i : Nat), i < files.length →
      e (r (dest ++ "/" ++ files.getD i "")) = true →
      (∀ j, j < i → e (r (dest ++ "/" ++ files.getD j "")) = false) →
      findFirstExisting e r dest files =
        some (files.getD i "", r (dest ++ "/" ++ files.getD i "")) := by
  intro files
  induction files with
  | nil => intro i hi; simp at hi
  | cons f rest ih =>
    intro i hi hex hprev
    cases i with
    | zero =>
      simp only [List.getD_cons_zero] at hex ⊢
      simp [findFirstExisting, hex]
    | succ i =>
      have hf : e (r (dest ++ "/" ++ f)) = false := by
        have := hprev 0 (Nat.succ_pos i)
        simpa using this
      simp only [List.getD_cons_succ] at hex ⊢
      simp only [findFirstExisting, hf, Bool.false_eq_true, if_false]
      exact ih i (by simpa using hi) hex
        (fun j hj => by simpa using hprev (j + 1) (by omega))

lemma resolveEnvPath_of_found (e : String → Bool) (r : String → String)
    (nodeEnv : Option String) (dest : String) (ign : Bool)
    (pattern : List EnvPatternPart) (rb fp : String)
    (h : findFirstExisting e r dest (candidateList nodeEnv pattern) = some (rb, fp)) :
    resolveEnvPath e r nodeEnv dest ign pattern =
      Except.ok { resolvedBy := rb, filepath := fp,
                  notification := resolverNotification ign rb } := by
  simp only [resolveEnvPath]
  rw [h]

lemma resolveEnvPath_of_none (e : String → Bool) (r : String → String)
    (nodeEnv : Option String) (dest : String) (ign : Bool)
    (pattern : List EnvPatternPart)
    (h : findFirstExisting e r dest (candidateList nodeEnv pattern) = none) :
    resolveEnvPath e r nodeEnv dest ign pattern =
      Except.error (errMessage (candidateList nodeEnv pattern)) := by
  simp only [resolveEnvPath]
  rw [h]

lemma resolveEnvPath_ok_inv (e : String → Bool) (r : String → String)
    (nodeEnv : Option String) (dest : String) (ign : Bool)
    (pattern : List EnvPatternPart) (res : ResolveResult)
    (h : resolveEnvPath e r nodeEnv dest ign pattern = Except.ok res) :
    findFirstExisting e r dest (candidateList nodeEnv pattern) =
        some (res.resolvedBy, res.filepath) ∧
      res.notification = resolverNotification ign res.resolvedBy := by
  simp only [resolveEnvPath] at h
  cases hf : findFirstExisting e r dest (candidateList nodeEnv pattern) with
  | none => rw [hf] at h; simp at h
  | some p =>
    rw [hf] at h
    cases p with
    | mk rb fp =>
      simp only [Except.ok.injEq] at h
      subst h
      exact ⟨rfl, rfl⟩

lemma resolveEnvPath_error_inv (e : String → Bool) (r : String → String)
    (nodeEnv : Option String) (dest : String) (ign : Bool)
    (pattern : List EnvPatternPart) (msg : String)
    (h : resolveEnvPath e r nodeEnv dest ign pattern = Except.error msg) :
    findFirstExisting e r dest (candidateList nodeEnv pattern) = none ∧
      msg = errMessage (candidateList nodeEnv pattern) := by
  simp only [resolveEnvPath] at h
  cases hf : findFirstExisting e r dest (candidateList nodeEnv pattern) with
  | none =>
    rw [hf] at h
    simp only [Except.error.injEq] at h
    exact ⟨rfl, h.symm⟩
  | some p =>
    rw [hf] at h
    cases p
    simp at h

/-! ### String append trivia -/

lemma string_empty_append (s : String) : "" ++ s = s :=
  String.ext (by simp)

lemma string_append_empty (s : String) : s ++ "" = s :=
  String.ext (by simp)

/-! ### Claims -/

/-- C1: for every ambient NODE_ENV state and every pattern, the list returned
by `generatePatternCombinations` equals the list produced by the reference
algorithm of spec section 4.2 (`specCombinations`: start with one empty
prefix, process parts strictly in sequence order, clone-before-append for an
optional part, unconditional append for a mandatory part); consequently the
combinations appear exactly in the order the reference algorithm creates
their defining clones. -/
theorem generator_matches_spec_algorithm (nodeEnv : Option String)
    (pattern : List EnvPatternPart) :
    generatePatternCombinations nodeEnv pattern = specCombinations nodeEnv pattern :=
  gen_eq_spec nodeEnv pattern

/-- C4: for every pattern with `k` optional parts, the generator produces a
list of exactly `2 ^ k` candidate strings (an exact count for all patterns,
so duplicate values are never collapsed). -/
theorem generator_produces_two_pow_optional_candidates (nodeEnv : Option String)
    (pattern : List EnvPatternPart) :
    (generatePatternCombinations nodeEnv pattern).length =
      2 ^ (pattern.countP (fun part => part.optional)) := by
  rw [gen_eq_spec]
  simp only [specCombinations]
  rw [specFoldl_length (activeEnv nodeEnv) pattern [""]]
  simp

/-- C9: the all-parts-included combination (the contribution of every part joined
in sequence order) is the first element of the generated list; a pattern with
zero optional parts yields exactly that single-element list; the empty
pattern yields one empty-string candidate. -/
theorem all_parts_combination_first (nodeEnv : Option String)
    (pattern : List EnvPatternPart) :
    (generatePatternCombinations nodeEnv pattern).head? =
        some (joinAll (pattern.map (partContribution (activeEnv nodeEnv)))) ∧
      (pattern.countP (fun part => part.optional) = 0 →
        generatePatternCombinations nodeEnv pattern =
          [joinAll (pattern.map (partContribution (activeEnv nodeEnv)))]) ∧
      generatePatternCombinations nodeEnv [] = [""] := by
  refine ⟨?_, ?_, rfl⟩
  · rw [gen_eq_spec]
    simp only [specCombinations]
    have h := specFoldl_head (activeEnv nodeEnv) pattern [""] "" (by simp)
    rw [h, string_empty_append]
  · intro hc
    rw [gen_eq_spec]
    simp only [specCombinations]
    rw [specFoldl_no_optional (activeEnv nodeEnv) pattern "" hc, string_empty_append]

/-- Witness for C9: a two-part pattern with no optional part expands to the
single concatenation of its contributions. -/
theorem all_parts_combination_first_witness :
    generatePatternCombinations none
        [{ value := ".env", type := EnvPartType.filename },
         { value := ".local", type := EnvPartType.filename }] = [".env.local"] := by
  rw [(all_parts_combination_first none
        [{ value := ".env", type := EnvPartType.filename },
         { value := ".local", type := EnvPartType.filename }]).2.1 (by decide)]
  decide

/-- C6: for every custom pattern, the expansion of the fixed built-in
fallback pattern is exactly `[".env"]`, and the full ordered candidate list is
the expansions of the custom pattern followed by that single fallback entry. -/
theorem fallback_expansion_always_dotenv (nodeEnv : Option String)
    (pattern : List EnvPatternPart) :
    generatePatternCombinations nodeEnv fallbackPattern = [".env"] ∧
      candidateList nodeEnv pattern =
        generatePatternCombinations nodeEnv pattern ++ [".env"] := by
  constructor
  · rfl
  · unfold candidateList
    rw [show generatePatternCombinations nodeEnv fallbackPattern = [".env"] from rfl]

/-- C2: if candidate `i` of the ordered candidate list is the first whose
path (joined to the base directory and passed through the absolute resolver)
exists, then `resolveEnvPath` succeeds and returns exactly the absolute
resolved path of that candidate; later candidates never influence the result. -/
theorem resolver_selects_first_existing_candidate (e : String → Bool)
    (r : String → String) (nodeEnv : Option String) (dest : String) (ign : Bool)
    (pattern : List EnvPatternPart) (i : Nat)
    (hi : i < (candidateList nodeEnv pattern).length)
    (hex : e (r (dest ++ "/" ++ (candidateList nodeEnv pattern).getD i "")) = true)
    (hprev : ∀ j, j < i →
      e (r (dest ++ "/" ++ (candidateList nodeEnv pattern).getD j "")) = false) :
    resolveEnvPath e r nodeEnv dest ign pattern =
      Except.ok
        { resolvedBy := (candidateList nodeEnv pattern).getD i "",
          filepath := r (dest ++ "/" ++ (candidateList nodeEnv pattern).getD i ""),
          notification := resolverNotification ign
            ((candidateList nodeEnv pattern).getD i "") } :=
  resolveEnvPath_of_found e r nodeEnv dest ign pattern _ _
    (findFirstExisting_first_index e r dest (candidateList nodeEnv pattern) i hi hex hprev)

/-- A probe for the witnesses: only `/app/.env` exists. -/
def probeOnlyDotEnv : String → Bool := fun p => p == "/app/.env"

/-- Witness for C2: with NODE_ENV unset and only `/app/.env` on disk, the
second candidate (`.env`) is the first that exists and its resolved path is
returned. -/
theorem resolver_selects_first_existing_candidate_witness :
    resolveEnvPath probeOnlyDotEnv id none "/app" false defaultEnvPattern =
      Except.ok
        { resolvedBy := ".env", filepath := "/app/.env",
          notification := { level := LogLevel.warn,
                            message := "Using fallback .env file" } } := by
  rw [resolver_selects_first_existing_candidate probeOnlyDotEnv id none "/app" false
        defaultEnvPattern 1 (by decide) (by decide) (by decide)]
  decide

/-- C3: `resolveEnvPath` fails if and only if every candidate of the expanded
list (custom expansions then fallback) fails the existence check, and the
error message enumerates every attempted candidate string in the order tried
(`errMessage` joins the attempted list in order). -/
theorem resolver_failure_iff_no_candidate_exists (e : String → Bool)
    (r : String → String) (nodeEnv : Option String) (dest : String) (ign : Bool)
    (pattern : List EnvPatternPart) :
    ((∀ f ∈ candidateList nodeEnv pattern, e (r (dest ++ "/" ++ f)) = false) ↔
        resolveEnvPath e r nodeEnv dest ign pattern =
          Except.error (errMessage (candidateList nodeEnv pattern))) ∧
      (∀ msg, resolveEnvPath e r nodeEnv dest ign pattern = Except.error msg →
        msg = errMessage (candidateList nodeEnv pattern)) := by
  constructor
  · constructor
    · intro hall
      exact resolveEnvPath_of_none e r nodeEnv dest ign pattern
        ((findFirstExisting_none_iff e r dest (candidateList nodeEnv pattern)).mpr hall)
    · intro herr
      exact (findFirstExisting_none_iff e r dest (candidateList nodeEnv pattern)).mp
        (resolveEnvPath_error_inv e r nodeEnv dest ign pattern _ herr).1
  · intro msg hmsg
    exact (resolveEnvPath_error_inv e r nodeEnv dest ign pattern msg hmsg).2

/-- A probe for the witnesses: nothing exists. -/
def probeNothing : String → Bool := fun _ => false

/-- Witness for C3: with an empty filesystem the default pattern fails with
the message listing `.env.development`, `.env`, `.env` in the order tried. -/
theorem resolver_failure_iff_no_candidate_exists_witness :
    resolveEnvPath probeNothing id none "/app" false defaultEnvPattern =
      Except.error
        "Couldn\x27t load environment file from any sources:\nTried: .env.development\n  - .env\n  - .env" := by
  rw [(resolver_failure_iff_no_candidate_exists probeNothing id none "/app" false
        defaultEnvPattern).1.mp (by decide)]
  decide

/-- C5: on success exactly one notification is carried in the result,
classified by the matched candidate string: `.env` yields the fallback
warning unless the suppression flag is set (then an info message), any other
match yields an info message naming the matched filename. -/
theorem success_notification_classification (e : String → Bool)
    (r : String → String) (nodeEnv : Option String) (dest : String) (ign : Bool)
    (pattern : List EnvPatternPart) (res : ResolveResult)
    (h : resolveEnvPath e r nodeEnv dest ign pattern = Except.ok res) :
    (res.resolvedBy = ".env" → ign = false →
        res.notification = { level := LogLevel.warn,
                             message := "Using fallback .env file" }) ∧
      (res.resolvedBy = ".env" → ign = true →
        res.notification = { level := LogLevel.info, message := "Using .env file" }) ∧
      (res.resolvedBy ≠ ".env" →
        res.notification = { level := LogLevel.info,
                             message := "Using " ++ res.resolvedBy ++ " file" }) := by
  have hn := (resolveEnvPath_ok_inv e r nodeEnv dest ign pattern res h).2
  refine ⟨?_, ?_, ?_⟩
  · intro hrb hign
    rw [hn, resolverNotification, if_pos hrb, hign]
    rfl
  · intro hrb hign
    rw [hn, resolverNotification, if_pos hrb, hign]
    rfl
  · intro hrb
    rw [hn, resolverNotification, if_neg hrb]
    rfl

/-- A probe for the witnesses: only `/app/.env` exists, for the suppression
scenario. -/
def probeOnlyDotEnvSuppressed : String → Bool := fun p => p == "/app/.env"

/-- Witness for C5 (spec Scenario 5): suppression flag set and only `.env`
exists, so the notification is info-level, not warning-level. -/
theorem success_notification_classification_witness :
    resolveEnvPath probeOnlyDotEnvSuppressed id none "/app" true defaultEnvPattern =
        Except.ok
          { resolvedBy := ".env", filepath := "/app/.env",
            notification := { level := LogLevel.info, message := "Using .env file" } } ∧
      ({ resolvedBy := ".env", filepath := "/app/.env",
         notification := { level := LogLevel.info,
                           message := "Using .env file" } : ResolveResult }).notification =
        { level := LogLevel.info, message := "Using .env file" } := by
  constructor
  · decide
  · exact (success_notification_classification probeOnlyDotEnvSuppressed id none "/app"
      true defaultEnvPattern _ (by decide)).2.1 rfl rfl

/-- Counterexample for C7 as stated: the source replace expands ECMAScript
replacement-template escapes occurring in the environment name, so the
substitution is not verbatim for every environment name: with NODE_ENV set to
the two-character name dollar-ampersand, the `node_env` part `.$1` yields
`.$1` (the matched text is re-inserted), not the verbatim result `.$&`. -/
theorem normalizer_contract_counterexample :
    partContribution "$&"
        { value := ".$1", type := EnvPartType.node_env, optional := true } = ".$1" ∧
      partContribution "$&"
          { value := ".$1", type := EnvPartType.node_env, optional := true } ≠ ".$&" := by
  decide

/-- C7 (amended): the per-part normalizer returns `value` unchanged for a
literal-fragment (`filename`) part; for an environment-name (`node_env`) part
it replaces the first occurrence of the placeholder `$1` (the single
occurrence under the one-placeholder invariant of the spec) by the active
environment name expanded per the ECMAScript replacement-template escapes
(`jsGetSubstitution`) — which is the verbatim environment name whenever the
name contains no dollar character; if the placeholder is absent the value is
returned unchanged and no error is raised. -/
theorem normalizer_contract (part : EnvPatternPart) (env : String) :
    (part.type = EnvPartType.filename → partContribution env part = part.value) ∧
      (part.type = EnvPartType.node_env →
        ∀ a b : List Char, part.value.data = a ++ '$' :: '1' :: b →
          containsSub ['$', '1'] a = false →
          (partContribution env part).data =
            a ++ jsGetSubstitution ['$', '1'] a b env.data ++ b) ∧
      (part.type = EnvPartType.node_env →
        containsSub ['$', '1'] part.value.data = false →
        partContribution env part = part.value) ∧
      (part.type = EnvPartType.node_env →
        ∀ a b : List Char, part.value.data = a ++ '$' :: '1' :: b →
          containsSub ['$', '1'] a = false → ('$' : Char) ∉ env.data →
          (partContribution env part).data = a ++ env.data ++ b) := by
  have hmain : part.type = EnvPartType.node_env →
      ∀ a b : List Char, part.value.data = a ++ '$' :: '1' :: b →
        containsSub ['$', '1'] a = false →
        (partContribution env part).data =
          a ++ jsGetSubstitution ['$', '1'] a b env.data ++ b := by
    intro htype a b hvalue ha
    have hocc : firstOccurrence? ("$1").data part.value.data = some a.length := by
      rw [show ("$1").data = ['$', '1'] from rfl, hvalue]
      exact firstOccurrence?_first b a ha
    rw [partContribution, if_pos htype]
    simp only [jsReplace, hocc]
    rw [hvalue]
    simp [List.take_left, List.drop_append]
  refine ⟨?_, hmain, ?_, ?_⟩
  · intro htype
    simp [partContribution, htype]
  · intro htype ha
    have hocc : firstOccurrence? ("$1").data part.value.data = none := by
      rw [show ("$1").data = ['$', '1'] from rfl]
      exact firstOccurrence?_of_not_contains ['$', '1'] part.value.data ha
    rw [partContribution, if_pos htype]
    simp only [jsReplace, hocc]
  · intro htype a b hvalue ha hd
    rw [hmain htype a b hvalue ha,
      jsGetSubstitution_no_dollar ['$', '1'] a b env.data hd]

/-- Witness for C7 (amended): substituting the dollar-free name `test` into
the default `node_env` part `.$1` yields `.test` verbatim. -/
theorem normalizer_contract_witness :
    (partContribution "test"
        { value := ".$1", type := EnvPartType.node_env, optional := true }).data =
      ['.'] ++ ("test").data ++ [] := by
  exact (normalizer_contract
      { value := ".$1", type := EnvPartType.node_env, optional := true } "test").2.2.2
    rfl ['.'] [] (by decide) (by decide) (by decide)

/-- C8: when NODE_ENV is unset the active environment name is the literal
`development`, so every environment-name part has its placeholder replaced by
`development`, and the generator behaves as if NODE_ENV were set to it. -/
theorem unset_env_defaults_to_development :
    activeEnv none = "development" ∧
      (∀ part : EnvPatternPart, part.type = EnvPartType.node_env →
        partContribution (activeEnv none) part =
          jsReplace part.value "$1" "development") ∧
      (∀ pattern : List EnvPatternPart,
        generatePatternCombinations none pattern =
          generatePatternCombinations (some "development") pattern) := by
  refine ⟨rfl, ?_, fun _ => rfl⟩
  intro part htype
  simp [partContribution, htype, activeEnv]

/-- Witness for C8: with NODE_ENV unset, the default `node_env` part `.$1`
contributes `.development`. -/
theorem unset_env_defaults_to_development_witness :
    partContribution (activeEnv none)
        { value := ".$1", type := EnvPartType.node_env, optional := true } =
      ".development" := by
  rw [unset_env_defaults_to_development.2.1
        { value := ".$1", type := EnvPartType.node_env, optional := true } rfl]
  decide

/-- C10: NODE_ENV set to the empty string behaves exactly like NODE_ENV
unset: the active environment name is the literal `development`, and both the
generator and the resolver produce identical outputs in the two states, so an
empty-string environment name can never appear in a candidate. -/
theorem empty_env_behaves_as_unset :
    activeEnv (some "") = "development" ∧
      (∀ pattern : List EnvPatternPart,
        generatePatternCombinations (some "") pattern =
          generatePatternCombinations none pattern) ∧
      (∀ (e : String → Bool) (r : String → String) (dest : String) (ign : Bool)
          (pattern : List EnvPatternPart),
        resolveEnvPath e r (some "") dest ign pattern =
          resolveEnvPath e r none dest ign pattern) := by
  exact ⟨rfl, fun _ => rfl, fun _ _ _ _ _ => rfl⟩
